import Mathlib

/-
Verification of the mastodon-social-graph core (graph.py, database.py).

The repository's own code (src/mastodon_social_graph/graph.py) is embedded
directly.  The repository delegates node/edge storage and the expansion
trigger to the external `graphscraper` package and network access to the
`mastodon` package; those collaborators are not part of the repository's
sources, so they are modelled from the specification's contracts (Store
contract in spec section 4.3, expansion wrapper in 4.4, facade trigger in
4.5, directory client in section 6).  Every such definition carries a
doc comment starting with "Modelled from the spec:".

Machine model: strings are Lean `String`s; Python `str.strip`, `str.lower`,
`str.find`/slicing and `in` are given explicit executable definitions.
Network effects are made observable: every operation returns, besides its
result, the list of directory-client calls it performed and the list of log
messages it emitted; fallible operations return `Except Unit`.
-/

namespace Mastodon

/-- An account record as returned by the directory client: its database id
(already coerced to a string, as the source always uses `str(account["id"])`)
and its canonical handle `acct`. -/
structure Account where
  id : String
  acct : String
deriving DecidableEq, Repr

/-- Python `str.strip()` on a list of characters: drop whitespace from both
ends. -/
def pyStripList (l : List Char) : List Char :=
  ((l.dropWhile Char.isWhitespace).reverse.dropWhile Char.isWhitespace).reverse

/-- Python `str.strip()`. -/
def pyStrip (s : String) : String :=
  String.mk (pyStripList s.data)

/-- Python `str.lower()`. -/
def pyLower (s : String) : String :=
  String.mk (s.data.map Char.toLower)

/-- Python `str.find("@")` on the underlying character list: index of the
first `'@'`, or `none` when there is no occurrence (Python returns `-1`). -/
def findAt : List Char → Option Nat
  | [] => none
  | c :: cs => if c = '@' then some 0 else (findAt cs).map (· + 1)

/-- Python `"@" in s`. -/
def hasAt (s : String) : Bool :=
  s.data.contains '@'

/-- The `instance_postfix` computation from graph.py lines 221-222:
`at_index = account_name.find("@")`;
`"" if at_index == -1 else account_name[at_index:]`. -/
def instanceSuffix (account_name : String) : String :=
  match findAt account_name.data with
  | none => ""
  | some i => String.mk (account_name.data.drop i)

/-- The key under which the expansion engine creates a neighbor node
(graph.py lines 219-227): `str(account["id"]).strip() + instance_postfix`. -/
def neighborKey (mastodon_id : String) (account_name : String) : String :=
  pyStrip mastodon_id ++ instanceSuffix account_name

/-- Source method `MastodonSocialGraph.get_account_for_account_name` (graph.py lines
64-90), with the directory search result passed in as `accounts` (the source
obtains it from `self._mastodon.account_search(account_name)`). -/
def get_account_for_account_name (accounts : List Account)
    (account_name : String) : Option Account :=
  if accounts.length = 1 then accounts.head?
  else
    let exactMatches := accounts.filter (fun a => a.acct == account_name)
    if exactMatches.length = 1 then exactMatches.head?
    else
      let lower_account_name := pyLower account_name
      let ciMatches := accounts.filter (fun a => pyLower a.acct == lower_account_name)
      if ciMatches.length = 1 then ciMatches.head?
      else none

/-- The disambiguation policy exactly as the spec words it (section 4.2):
first rule yielding exactly one candidate wins; stated with singleton
pattern matches, for comparison with the source implementation. -/
def resolvePolicySpec (accounts : List Account) (handle : String) : Option Account :=
  match accounts with
  | [a] => some a
  | _ =>
    match accounts.filter (fun a => a.acct == handle) with
    | [a] => some a
    | _ =>
      match accounts.filter (fun a => pyLower a.acct == pyLower handle) with
      | [a] => some a
      | _ => none

/-- Source method `MastodonSocialGraph.get_authentic_node_name` (graph.py lines 92-99):
`node_name.strip()`. -/
def get_authentic_node_name (node_name : String) : String :=
  pyStrip node_name

/-- A node record. Modelled from the spec: section 3 Node — `key` (the
source's `name`), `externalId`, and the `expanded` flag that starts `false`. -/
structure NodeRec where
  name : String
  externalId : Option String
  expanded : Bool
deriving DecidableEq, Repr

/-- The persistent graph store. Modelled from the spec: section 4.3 — a
mapping from key to node record plus the set of edges (kept as lists so
every operation is executable). -/
structure Store where
  nodes : List NodeRec
  edges : List (String × String)
deriving DecidableEq, Repr

/-- The empty store. -/
def emptyStore : Store := ⟨[], []⟩

/-- Look up a node record by key. -/
def findNode (s : Store) (key : String) : Option NodeRec :=
  s.nodes.find? (fun n => n.name == key)

/-- Whether a node record with the given key exists in the store. -/
def hasNode (s : Store) (key : String) : Bool :=
  (findNode s key).isSome

/-- Modelled from the spec: Store `getOrCreate(key, externalId)` (section
4.3) — return the existing node for `key`, otherwise create one with
`expanded = false` and the supplied external id. -/
def getOrCreate (s : Store) (key : String) (externalId : Option String) :
    Store × NodeRec :=
  match findNode s key with
  | some n => (s, n)
  | none =>
    let n : NodeRec := ⟨key, externalId, false⟩
    ({ s with nodes := s.nodes ++ [n] }, n)

/-- Modelled from the spec: Store `markExpanded(key)` (section 4.3) — set
`expanded = true` for the node; no-op if already `true` or absent. -/
def markExpanded (s : Store) (key : String) : Store :=
  { s with
    nodes := s.nodes.map (fun n => if n.name == key then { n with expanded := true } else n) }

/-- Whether the unordered pair `(a, b)` is already recorded. -/
def edgeMem (s : Store) (a b : String) : Bool :=
  s.edges.contains (a, b) || s.edges.contains (b, a)

/-- Modelled from the spec: Store `addEdge(a, b)` (section 4.3) — insert the
unordered pair if absent; no-op if present or if `a = b`. -/
def addEdge (s : Store) (a b : String) : Store :=
  if a = b || edgeMem s a b then s
  else { s with edges := s.edges ++ [(a, b)] }

/-- Modelled from the spec: `graphscraper`'s `NodeList.get_node_by_name`
with `can_validate_and_load=True` — resolve the authentic node name through
the graph's `get_authentic_node_name` override, then get-or-create the node
under that key. -/
def get_node_by_name (s : Store) (node_name : String) (external_id : Option String) :
    Store × NodeRec :=
  getOrCreate s (get_authentic_node_name node_name) external_id

/-- A directory-client call, recorded so that "performs no network call"
claims are stateable. -/
inductive ApiCall where
  | search (query : String)
  | accountFollowers (account_id : String)
  | accountFollowing (account_id : String)
deriving DecidableEq, Repr

/-- Modelled from the spec: the external directory client (section 6) —
`account_search`, and the paged follower/following fetches which may raise
the not-found signal (`Except.error ()` stands for `MastodonNotFoundError`). -/
structure DirectoryClient where
  account_search : String → List Account
  account_followers : String → Except Unit (List Account)
  account_following : String → Except Unit (List Account)

/-- The graph configuration held by `MastodonSocialGraph.__init__`
(graph.py lines 18-44). -/
structure MastodonSocialGraph where
  client : DirectoryClient
  followers : Bool
  following : Bool
  swallow_errors : Bool

/-- The `MastodonSocialGraph.__init__` default flags (graph.py lines 23-25):
`followers=False`, `following=True`, `swallow_errors=True`. -/
def mkDefaultGraph (client : DirectoryClient) : MastodonSocialGraph :=
  ⟨client, false, true, true⟩

/-- Result of an effectful operation: the directory-client calls performed,
the log messages emitted, and the result (or a propagated error). -/
structure Eff (α : Type) where
  calls : List ApiCall
  logs : List String
  res : Except Unit α

/-- Source method `MastodonSocialGraph.load_follower_accounts` (graph.py lines 121-141):
fetch, and on `MastodonNotFoundError` log the account id, then return `[]`
when `swallow_errors` is set, else re-raise. -/
def load_follower_accounts (g : MastodonSocialGraph) (account_id : String) :
    Eff (List Account) :=
  match g.client.account_followers account_id with
  | .ok accounts => ⟨[.accountFollowers account_id], [], .ok accounts⟩
  | .error e =>
    let logs := ["Account was not found: " ++ account_id]
    if g.swallow_errors then ⟨[.accountFollowers account_id], logs, .ok []⟩
    else ⟨[.accountFollowers account_id], logs, .error e⟩

/-- Source method `MastodonSocialGraph.load_following_accounts` (graph.py lines 143-160). -/
def load_following_accounts (g : MastodonSocialGraph) (account_id : String) :
    Eff (List Account) :=
  match g.client.account_following account_id with
  | .ok accounts => ⟨[.accountFollowing account_id], [], .ok accounts⟩
  | .error e =>
    let logs := ["Account was not found: " ++ account_id]
    if g.swallow_errors then ⟨[.accountFollowing account_id], logs, .ok []⟩
    else ⟨[.accountFollowing account_id], logs, .error e⟩

/-- Source method `MastodonSocialGraph.load_neighbor_accounts` (graph.py lines 162-174):
`followers if self._followers else []`, `following if self._following else
[]`, concatenated.  As in Python, a raised error in the followers fetch
prevents the following fetch from running. -/
def load_neighbor_accounts (g : MastodonSocialGraph) (account_id : String) :
    Eff (List Account) :=
  let fr := if g.followers then load_follower_accounts g account_id
            else ⟨[], [], .ok []⟩
  match fr.res with
  | .error e => ⟨fr.calls, fr.logs, .error e⟩
  | .ok l1 =>
    let fg := if g.following then load_following_accounts g account_id
              else ⟨[], [], .ok []⟩
    match fg.res with
    | .error e => ⟨fr.calls ++ fg.calls, fr.logs ++ fg.logs, .error e⟩
    | .ok l2 => ⟨fr.calls ++ fg.calls, fr.logs ++ fg.logs, .ok (l1 ++ l2)⟩

/-- One iteration of the neighbor loop in
`MastodonSocialGraphNode._load_neighbors_from_external_source` (graph.py
lines 218-233): get-or-create the neighbor node under its federated key,
then add the edge. -/
def addNeighbor (node : NodeRec) (s : Store) (account : Account) : Store :=
  let r := get_node_by_name s (neighborKey account.id account.acct) (some account.acct)
  addEdge r.1 node.name r.2.name

/-- Source method `MastodonSocialGraphNode._load_neighbors_from_external_source`
(graph.py lines 206-233): return immediately when the node name contains
`"@"` (remote account); otherwise fetch neighbor accounts and record a node
and an edge for each. -/
def load_neighbors_from_external_source (g : MastodonSocialGraph) (s : Store)
    (node : NodeRec) : Eff Store :=
  if hasAt node.name then ⟨[], [], .ok s⟩
  else
    let e := load_neighbor_accounts g node.name
    match e.res with
    | .error err => ⟨e.calls, e.logs, .error err⟩
    | .ok accounts => ⟨e.calls, e.logs, .ok (accounts.foldl (addNeighbor node) s)⟩

/-- Modelled from the spec: the expansion wrapper (`graphscraper`'s lazy
neighbor loading, spec section 4.4) — skip when the node is already
expanded; otherwise run the external-source load and, on completion, mark
the node expanded; on a propagated error leave the store untouched. -/
def expand (g : MastodonSocialGraph) (s : Store) (node : NodeRec) : Eff Store :=
  if node.expanded then ⟨[], [], .ok s⟩
  else
    let e := load_neighbors_from_external_source g s node
    match e.res with
    | .error err => ⟨e.calls, e.logs, .error err⟩
    | .ok s1 => ⟨e.calls, e.logs, .ok (markExpanded s1 node.name)⟩

/-- Source method `MastodonSocialGraph.get_node_for_account_name` (graph.py lines
101-119) composed with the expansion trigger. Modelled from the spec for the
trigger (section 4.5: expansion runs on the returned node before it is
handed back); the key passed to the store is `str(account["id"])`, exactly
as in the source. -/
def get_node_for_account_name (g : MastodonSocialGraph) (s : Store)
    (account_name : String) : Eff (Store × Option NodeRec) :=
  let results := g.client.account_search account_name
  match get_account_for_account_name results account_name with
  | none => ⟨[.search account_name], [], .ok (s, none)⟩
  | some account =>
    let r := get_node_by_name s account.id (some account.acct)
    let e := expand g r.1 r.2
    match e.res with
    | .error err => ⟨.search account_name :: e.calls, e.logs, .error err⟩
    | .ok s2 => ⟨.search account_name :: e.calls, e.logs, .ok (s2, findNode s2 r.2.name)⟩

/-- A concrete directory client: every search returns the single remote
account with id `"42"` and handle `alice@example.social`; the neighbor
fetches return empty lists. -/
def cexClient : DirectoryClient :=
  ⟨fun _ => [⟨"42", "alice@example.social"⟩], fun _ => .ok [], fun _ => .ok []⟩

/-- A concrete directory client whose following fetch always raises the
not-found signal. -/
def errClient : DirectoryClient :=
  ⟨fun _ => [], fun _ => .ok [], fun _ => .error ()⟩

/-- A concrete directory client whose follower and following fetches both
return the same single account, to exhibit the absence of deduplication. -/
def dupClient : DirectoryClient :=
  ⟨fun _ => [], fun _ => .ok [⟨"1", "a"⟩], fun _ => .ok [⟨"1", "a"⟩]⟩

/-- The `expanded` flag of the node stored under `key` (`false` when the
key is absent). -/
def nodeExpanded (s : Store) (key : String) : Bool :=
  match findNode s key with
  | some n => n.expanded
  | none => false

/-- The store invariant of spec section 3: every recorded edge connects two
keys whose node records exist. -/
def edgeClosed (s : Store) : Prop :=
  ∀ a b : String, (a, b) ∈ s.edges → hasNode s a = true ∧ hasNode s b = true

/-- A public operation of the graph facade, for stating invariants over
arbitrary operation sequences. -/
inductive GraphOp where
  | nodeFor (handle : String)
  | expandKey (key : String)

/-- The store resulting from a possibly-failing operation: the new store on
success, the previous store `s` when the operation propagated an error. -/
def exceptStore (s : Store) : Except Unit Store → Store
  | .ok s1 => s1
  | .error _ => s

/-- Run one public operation, keeping the previous store when the operation
propagates an error (strict mode). -/
def applyOp (g : MastodonSocialGraph) (s : Store) (op : GraphOp) : Store :=
  match op with
  | .nodeFor handle =>
    match (get_node_for_account_name g s handle).res with
    | .ok r => r.1
    | .error _ => s
  | .expandKey key =>
    match findNode s key with
    | none => s
    | some n => exceptStore s (expand g s n).res

/-- Run a sequence of public operations from the empty store. -/
def runOps (g : MastodonSocialGraph) (ops : List GraphOp) : Store :=
  ops.foldl (applyOp g) emptyStore

/-! ### Helper lemmas -/

theorem findAt_eq_none (l : List Char) (h : l.contains '@' = false) :
    findAt l = none := by
  induction l with
  | nil => rfl
  | cons c cs ih =>
    simp only [List.contains_cons, Bool.or_eq_false_iff] at h
    have hc : ¬ c = '@' := by
      intro hc
      subst hc
      simp at h
    simp only [findAt, if_neg hc, ih h.2, Option.map_none']

theorem string_append_mk_nil (s : String) : s ++ String.mk [] = s := by
  cases s with
  | mk data =>
    show String.mk (data ++ []) = String.mk data
    rw [List.append_nil]

theorem ifLenOneEq (l : List Account) (x : Option Account) :
    (if l.length = 1 then l.head? else x) =
      (match l with | [a] => some a | _ => x) := by
  rcases l with _ | ⟨a, _ | ⟨b, t⟩⟩
  · simp
  · simp
  · rw [if_neg (by intro hlen; simp only [List.length_cons] at hlen; omega)]

theorem findNode_name {s : Store} {k : String} {n : NodeRec}
    (h : findNode s k = some n) : n.name = k := by
  have := List.find?_some h
  simpa using this

theorem getOrCreate_edges (s : Store) (k : String) (e : Option String) :
    ((getOrCreate s k e).1).edges = s.edges := by
  unfold getOrCreate
  cases h : findNode s k <;> simp [h]

theorem getOrCreate_name (s : Store) (k : String) (e : Option String) :
    ((getOrCreate s k e).2).name = k := by
  unfold getOrCreate
  cases h : findNode s k with
  | none => simp [h]
  | some n =>
    simp only [h]
    exact findNode_name h

theorem getOrCreate_find (s : Store) (k : String) (e : Option String) :
    findNode (getOrCreate s k e).1 k = some (getOrCreate s k e).2 := by
  unfold getOrCreate
  cases h : findNode s k with
  | none =>
    simp only [h]
    unfold findNode at h ⊢
    simp only [List.find?_append, h, Option.none_or]
    simp [List.find?]
  | some n => simp [h]

theorem findNode_getOrCreate_mono {s : Store} {k' : String} {n : NodeRec}
    (k : String) (e : Option String) (h : findNode s k' = some n) :
    findNode (getOrCreate s k e).1 k' = some n := by
  unfold getOrCreate
  cases hk : findNode s k with
  | some m => simpa [hk] using h
  | none =>
    simp only [hk]
    unfold findNode at h ⊢
    simp [List.find?_append, h]

theorem hasNode_getOrCreate_mono {s : Store} {k' : String}
    (k : String) (e : Option String) (h : hasNode s k' = true) :
    hasNode (getOrCreate s k e).1 k' = true := by
  unfold hasNode at h ⊢
  cases hf : findNode s k' with
  | none => simp [hf] at h
  | some n => simp [findNode_getOrCreate_mono k e hf]

theorem nodeExpanded_getOrCreate_mono {s : Store} {k' : String}
    (k : String) (e : Option String) (h : nodeExpanded s k' = true) :
    nodeExpanded (getOrCreate s k e).1 k' = true := by
  unfold nodeExpanded at h ⊢
  cases hf : findNode s k' with
  | none => simp [hf] at h
  | some n =>
    simp only [hf] at h
    simp [findNode_getOrCreate_mono k e hf, h]

theorem hasNode_getOrCreate_self (s : Store) (k : String) (e : Option String) :
    hasNode (getOrCreate s k e).1 k = true := by
  unfold hasNode
  rw [getOrCreate_find]
  rfl

theorem markExpanded_edges (s : Store) (k : String) :
    (markExpanded s k).edges = s.edges := rfl

theorem markExpanded_update_name (n : NodeRec) (k : String) :
    (if n.name == k then { n with expanded := true } else n).name = n.name := by
  split <;> rfl

theorem findNode_markExpanded (s : Store) (k k' : String) :
    findNode (markExpanded s k) k' =
      (findNode s k').map (fun n => if n.name == k then { n with expanded := true } else n) := by
  unfold markExpanded findNode
  rw [List.find?_map]
  have hp : ((fun n : NodeRec => n.name == k') ∘ fun n =>
      if n.name == k then { n with expanded := true } else n) =
      (fun n : NodeRec => n.name == k') := by
    funext n
    show ((if n.name == k then { n with expanded := true } else n).name == k') =
      (n.name == k')
    rw [markExpanded_update_name]
  rw [hp]

theorem hasNode_markExpanded (s : Store) (k k' : String) :
    hasNode (markExpanded s k) k' = hasNode s k' := by
  unfold hasNode
  rw [findNode_markExpanded]
  cases findNode s k' <;> rfl

theorem nodeExpanded_markExpanded_self {s : Store} {k : String}
    (h : hasNode s k = true) : nodeExpanded (markExpanded s k) k = true := by
  unfold hasNode at h
  unfold nodeExpanded
  rw [findNode_markExpanded]
  cases hf : findNode s k with
  | none => simp [hf] at h
  | some n =>
    have hn : n.name = k := findNode_name hf
    simp [hn]

theorem nodeExpanded_markExpanded_mono {s : Store} {k' : String} (k : String)
    (h : nodeExpanded s k' = true) : nodeExpanded (markExpanded s k) k' = true := by
  unfold nodeExpanded at h ⊢
  rw [findNode_markExpanded]
  cases hf : findNode s k' with
  | none => simp [hf] at h
  | some n =>
    rw [hf] at h
    simp only [hf, Option.map_some']
    split <;> simp_all

theorem addEdge_nodes (s : Store) (a b : String) :
    (addEdge s a b).nodes = s.nodes := by
  unfold addEdge
  split <;> rfl

theorem hasNode_addEdge (s : Store) (a b k : String) :
    hasNode (addEdge s a b) k = hasNode s k := by
  unfold hasNode findNode
  rw [addEdge_nodes]

theorem nodeExpanded_addEdge (s : Store) (a b k : String) :
    nodeExpanded (addEdge s a b) k = nodeExpanded s k := by
  unfold nodeExpanded findNode
  rw [addEdge_nodes]

theorem addEdge_mem {s : Store} {a b x y : String}
    (h : (x, y) ∈ (addEdge s a b).edges) :
    (x, y) ∈ s.edges ∨ (x = a ∧ y = b) := by
  unfold addEdge at h
  split at h
  · exact Or.inl h
  · simp only [List.mem_append, List.mem_singleton] at h
    rcases h with h | h
    · exact Or.inl h
    · right
      exact ⟨congrArg Prod.fst h, congrArg Prod.snd h⟩

theorem edgeClosed_addEdge {s : Store} {a b : String} (h : edgeClosed s)
    (ha : hasNode s a = true) (hb : hasNode s b = true) :
    edgeClosed (addEdge s a b) := by
  intro x y hxy
  rw [hasNode_addEdge, hasNode_addEdge]
  rcases addEdge_mem hxy with hm | ⟨hx, hy⟩
  · exact h x y hm
  · subst hx; subst hy; exact ⟨ha, hb⟩

theorem edgeClosed_getOrCreate {s : Store} (k : String) (e : Option String)
    (h : edgeClosed s) : edgeClosed (getOrCreate s k e).1 := by
  intro x y hxy
  rw [getOrCreate_edges] at hxy
  exact ⟨hasNode_getOrCreate_mono k e (h x y hxy).1,
         hasNode_getOrCreate_mono k e (h x y hxy).2⟩

theorem edgeClosed_markExpanded {s : Store} (k : String)
    (h : edgeClosed s) : edgeClosed (markExpanded s k) := by
  intro x y hxy
  rw [markExpanded_edges] at hxy
  rw [hasNode_markExpanded, hasNode_markExpanded]
  exact h x y hxy

theorem nodeExpanded_iff (s : Store) (k : String) :
    nodeExpanded s k = true ↔ ∃ n, findNode s k = some n ∧ n.expanded = true := by
  unfold nodeExpanded
  cases findNode s k <;> simp

theorem addNeighbor_hasNode_mono {s : Store} {k : String} (node : NodeRec)
    (account : Account) (h : hasNode s k = true) :
    hasNode (addNeighbor node s account) k = true := by
  unfold addNeighbor get_node_by_name
  rw [hasNode_addEdge]
  exact hasNode_getOrCreate_mono _ _ h

theorem addNeighbor_nodeExpanded_mono {s : Store} {k : String} (node : NodeRec)
    (account : Account) (h : nodeExpanded s k = true) :
    nodeExpanded (addNeighbor node s account) k = true := by
  unfold addNeighbor get_node_by_name
  rw [nodeExpanded_addEdge]
  exact nodeExpanded_getOrCreate_mono _ _ h

theorem addNeighbor_edgeClosed {s : Store} {node : NodeRec} (account : Account)
    (h : edgeClosed s) (hn : hasNode s node.name = true) :
    edgeClosed (addNeighbor node s account) := by
  unfold addNeighbor get_node_by_name
  refine edgeClosed_addEdge (edgeClosed_getOrCreate _ _ h)
    (hasNode_getOrCreate_mono _ _ hn) ?_
  rw [getOrCreate_name]
  exact hasNode_getOrCreate_self _ _ _

theorem foldl_addNeighbor_hasNode {node : NodeRec} {k : String} :
    ∀ (accounts : List Account) (s : Store), hasNode s k = true →
      hasNode (accounts.foldl (addNeighbor node) s) k = true := by
  intro accounts
  induction accounts with
  | nil => exact fun s h => h
  | cons a t ih => exact fun s h => ih _ (addNeighbor_hasNode_mono node a h)

theorem foldl_addNeighbor_nodeExpanded {node : NodeRec} {k : String} :
    ∀ (accounts : List Account) (s : Store), nodeExpanded s k = true →
      nodeExpanded (accounts.foldl (addNeighbor node) s) k = true := by
  intro accounts
  induction accounts with
  | nil => exact fun s h => h
  | cons a t ih => exact fun s h => ih _ (addNeighbor_nodeExpanded_mono node a h)

theorem foldl_addNeighbor_edgeClosed {node : NodeRec} :
    ∀ (accounts : List Account) (s : Store), edgeClosed s →
      hasNode s node.name = true →
      edgeClosed (accounts.foldl (addNeighbor node) s) := by
  intro accounts
  induction accounts with
  | nil => exact fun s h _ => h
  | cons a t ih =>
    exact fun s h hn =>
      ih _ (addNeighbor_edgeClosed a h hn) (addNeighbor_hasNode_mono node a hn)

/-! Equation lemmas describing each branch of the loaders and of `expand`. -/

theorem load_follower_eq_ok {g : MastodonSocialGraph} {account_id : String}
    {l : List Account} (hc : g.client.account_followers account_id = .ok l) :
    load_follower_accounts g account_id = ⟨[.accountFollowers account_id], [], .ok l⟩ := by
  unfold load_follower_accounts
  simp [hc]

theorem load_follower_eq_swallow {g : MastodonSocialGraph} {account_id : String}
    (hsw : g.swallow_errors = true)
    (hc : g.client.account_followers account_id = .error ()) :
    load_follower_accounts g account_id =
      ⟨[.accountFollowers account_id], ["Account was not found: " ++ account_id], .ok []⟩ := by
  unfold load_follower_accounts
  simp [hc, hsw]

theorem load_follower_eq_strict {g : MastodonSocialGraph} {account_id : String}
    (hsw : g.swallow_errors = false)
    (hc : g.client.account_followers account_id = .error ()) :
    load_follower_accounts g account_id =
      ⟨[.accountFollowers account_id], ["Account was not found: " ++ account_id],
        .error ()⟩ := by
  unfold load_follower_accounts
  simp [hc, hsw]

theorem load_following_eq_ok {g : MastodonSocialGraph} {account_id : String}
    {l : List Account} (hc : g.client.account_following account_id = .ok l) :
    load_following_accounts g account_id = ⟨[.accountFollowing account_id], [], .ok l⟩ := by
  unfold load_following_accounts
  simp [hc]

theorem load_following_eq_swallow {g : MastodonSocialGraph} {account_id : String}
    (hsw : g.swallow_errors = true)
    (hc : g.client.account_following account_id = .error ()) :
    load_following_accounts g account_id =
      ⟨[.accountFollowing account_id], ["Account was not found: " ++ account_id], .ok []⟩ := by
  unfold load_following_accounts
  simp [hc, hsw]

theorem load_following_eq_strict {g : MastodonSocialGraph} {account_id : String}
    (hsw : g.swallow_errors = false)
    (hc : g.client.account_following account_id = .error ()) :
    load_following_accounts g account_id =
      ⟨[.accountFollowing account_id], ["Account was not found: " ++ account_id],
        .error ()⟩ := by
  unfold load_following_accounts
  simp [hc, hsw]

theorem load_follower_swallow_res {g : MastodonSocialGraph} (account_id : String)
    (hsw : g.swallow_errors = true) :
    ∃ l, (load_follower_accounts g account_id).res = .ok l := by
  unfold load_follower_accounts
  cases hc : g.client.account_followers account_id <;> simp [hsw]

theorem load_following_swallow_res {g : MastodonSocialGraph} (account_id : String)
    (hsw : g.swallow_errors = true) :
    ∃ l, (load_following_accounts g account_id).res = .ok l := by
  unfold load_following_accounts
  cases hc : g.client.account_following account_id <;> simp [hsw]

theorem load_neighbor_swallow_res {g : MastodonSocialGraph} (account_id : String)
    (hsw : g.swallow_errors = true) :
    ∃ l, (load_neighbor_accounts g account_id).res = .ok l := by
  unfold load_neighbor_accounts
  cases hfo : g.followers <;> cases hfg : g.following <;> simp only [hfo, hfg]
  · exact ⟨[], rfl⟩
  · obtain ⟨l, hl⟩ := load_following_swallow_res (g := g) account_id hsw
    simp [hl]
  · obtain ⟨l, hl⟩ := load_follower_swallow_res (g := g) account_id hsw
    simp [hl]
  · obtain ⟨l1, hl1⟩ := load_follower_swallow_res (g := g) account_id hsw
    obtain ⟨l2, hl2⟩ := load_following_swallow_res (g := g) account_id hsw
    simp [hl1, hl2]

theorem lnes_remote {g : MastodonSocialGraph} (s : Store) {node : NodeRec}
    (hat : hasAt node.name = true) :
    load_neighbors_from_external_source g s node = ⟨[], [], .ok s⟩ := by
  unfold load_neighbors_from_external_source
  simp [hat]

theorem lnes_local_ok {g : MastodonSocialGraph} (s : Store) {node : NodeRec}
    {accounts : List Account} (hat : hasAt node.name = false)
    (hres : (load_neighbor_accounts g node.name).res = .ok accounts) :
    load_neighbors_from_external_source g s node =
      ⟨(load_neighbor_accounts g node.name).calls,
        (load_neighbor_accounts g node.name).logs,
        .ok (accounts.foldl (addNeighbor node) s)⟩ := by
  unfold load_neighbors_from_external_source
  simp [hat, hres]

theorem lnes_local_err {g : MastodonSocialGraph} (s : Store) {node : NodeRec}
    (hat : hasAt node.name = false)
    (hres : (load_neighbor_accounts g node.name).res = .error ()) :
    load_neighbors_from_external_source g s node =
      ⟨(load_neighbor_accounts g node.name).calls,
        (load_neighbor_accounts g node.name).logs, .error ()⟩ := by
  unfold load_neighbors_from_external_source
  simp [hat, hres]

theorem expand_already (g : MastodonSocialGraph) (s : Store) {node : NodeRec}
    (hexp : node.expanded = true) : expand g s node = ⟨[], [], .ok s⟩ := by
  unfold expand
  simp [hexp]

theorem expand_fresh_ok {g : MastodonSocialGraph} {s s1 : Store} {node : NodeRec}
    (hexp : node.expanded = false)
    (hres : (load_neighbors_from_external_source g s node).res = .ok s1) :
    expand g s node =
      ⟨(load_neighbors_from_external_source g s node).calls,
        (load_neighbors_from_external_source g s node).logs,
        .ok (markExpanded s1 node.name)⟩ := by
  unfold expand
  simp [hexp, hres]

theorem expand_fresh_err {g : MastodonSocialGraph} {s : Store} {node : NodeRec}
    (hexp : node.expanded = false)
    (hres : (load_neighbors_from_external_source g s node).res = .error ()) :
    expand g s node =
      ⟨(load_neighbors_from_external_source g s node).calls,
        (load_neighbors_from_external_source g s node).logs, .error ()⟩ := by
  unfold expand
  simp [hexp, hres]

theorem expand_ok_mono {g : MastodonSocialGraph} {s s' : Store} {node : NodeRec}
    (hok : (expand g s node).res = .ok s') :
    (∀ k, hasNode s k = true → hasNode s' k = true) ∧
    (∀ k, nodeExpanded s k = true → nodeExpanded s' k = true) ∧
    (edgeClosed s → hasNode s node.name = true → edgeClosed s') := by
  cases hexp : node.expanded with
  | true =>
    rw [expand_already g s hexp] at hok
    have hs : s = s' := by simpa using hok
    subst hs
    exact ⟨fun _ h => h, fun _ h => h, fun h _ => h⟩
  | false =>
    cases hat : hasAt node.name with
    | true =>
      rw [expand_fresh_ok hexp (by rw [lnes_remote s hat])] at hok
      have hs : markExpanded s node.name = s' := by simpa using hok
      subst hs
      refine ⟨fun k h => ?_, fun k h => nodeExpanded_markExpanded_mono _ h,
        fun h _ => edgeClosed_markExpanded _ h⟩
      rw [hasNode_markExpanded]
      exact h
    | false =>
      cases hres : (load_neighbor_accounts g node.name).res with
      | error e =>
        cases e
        rw [expand_fresh_err hexp (by rw [lnes_local_err s hat hres])] at hok
        simp at hok
      | ok accounts =>
        rw [expand_fresh_ok hexp (by rw [lnes_local_ok s hat hres])] at hok
        have hs : markExpanded (accounts.foldl (addNeighbor node) s) node.name = s' := by
          simpa using hok
        subst hs
        refine ⟨fun k h => ?_, fun k h => ?_, fun h hn => ?_⟩
        · rw [hasNode_markExpanded]
          exact foldl_addNeighbor_hasNode _ _ h
        · exact nodeExpanded_markExpanded_mono _ (foldl_addNeighbor_nodeExpanded _ _ h)
        · exact edgeClosed_markExpanded _ (foldl_addNeighbor_edgeClosed _ _ h hn)

theorem expand_ok_self {g : MastodonSocialGraph} {s s' : Store} {node : NodeRec}
    (hfind : findNode s node.name = some node)
    (hok : (expand g s node).res = .ok s') :
    nodeExpanded s' node.name = true := by
  have hhas : hasNode s node.name = true := by
    unfold hasNode
    rw [hfind]
    rfl
  cases hexp : node.expanded with
  | true =>
    rw [expand_already g s hexp] at hok
    have hs : s = s' := by simpa using hok
    subst hs
    unfold nodeExpanded
    rw [hfind]
    exact hexp
  | false =>
    cases hat : hasAt node.name with
    | true =>
      rw [expand_fresh_ok hexp (by rw [lnes_remote s hat])] at hok
      have hs : markExpanded s node.name = s' := by simpa using hok
      subst hs
      exact nodeExpanded_markExpanded_self hhas
    | false =>
      cases hres : (load_neighbor_accounts g node.name).res with
      | error e =>
        cases e
        rw [expand_fresh_err hexp (by rw [lnes_local_err s hat hres])] at hok
        simp at hok
      | ok accounts =>
        rw [expand_fresh_ok hexp (by rw [lnes_local_ok s hat hres])] at hok
        have hs : markExpanded (accounts.foldl (addNeighbor node) s) node.name = s' := by
          simpa using hok
        subst hs
        exact nodeExpanded_markExpanded_self (foldl_addNeighbor_hasNode _ _ hhas)

theorem expand_swallow_res {g : MastodonSocialGraph} (s : Store) (node : NodeRec)
    (hsw : g.swallow_errors = true) :
    ∃ s', (expand g s node).res = .ok s' := by
  cases hexp : node.expanded with
  | true => exact ⟨s, by rw [expand_already g s hexp]⟩
  | false =>
    cases hat : hasAt node.name with
    | true =>
      exact ⟨markExpanded s node.name,
        by rw [expand_fresh_ok hexp (by rw [lnes_remote s hat])]⟩
    | false =>
      obtain ⟨l, hl⟩ := load_neighbor_swallow_res (g := g) node.name hsw
      exact ⟨markExpanded (l.foldl (addNeighbor node) s) node.name,
        by rw [expand_fresh_ok hexp (by rw [lnes_local_ok s hat hl])]⟩

theorem get_node_by_name_find (s : Store) (node_name : String) (e : Option String) :
    findNode (get_node_by_name s node_name e).1
      ((get_node_by_name s node_name e).2).name =
      some (get_node_by_name s node_name e).2 := by
  unfold get_node_by_name
  rw [getOrCreate_name]
  exact getOrCreate_find _ _ _

theorem get_node_by_name_name (s : Store) (node_name : String) (e : Option String) :
    ((get_node_by_name s node_name e).2).name = pyStrip node_name := by
  unfold get_node_by_name
  rw [getOrCreate_name]
  rfl

theorem facade_swallow_node {client : DirectoryClient} {s : Store} {name : String}
    {account : Account}
    (hres : get_account_for_account_name (client.account_search name) name = some account) :
    ∃ s2 n, (get_node_for_account_name (mkDefaultGraph client) s name).res =
        .ok (s2, some n) ∧
      n.name = pyStrip account.id ∧ n.expanded = true := by
  obtain ⟨s2, hs2⟩ := expand_swallow_res (g := mkDefaultGraph client)
    (get_node_by_name s account.id (some account.acct)).1
    (get_node_by_name s account.id (some account.acct)).2 rfl
  have hself := expand_ok_self (get_node_by_name_find s account.id (some account.acct)) hs2
  obtain ⟨n, hn, hne⟩ := (nodeExpanded_iff _ _).mp hself
  have hname : n.name = pyStrip account.id := by
    rw [findNode_name hn]
    exact get_node_by_name_name s account.id (some account.acct)
  refine ⟨s2, n, ?_, hname, hne⟩
  unfold get_node_for_account_name
  simp only [mkDefaultGraph] at hres hs2 ⊢
  simp [hres, hs2, hn]

theorem facade_ok_edgeClosed {g : MastodonSocialGraph} {s s2 : Store} {name : String}
    {x : Option NodeRec} (h : edgeClosed s)
    (hok : (get_node_for_account_name g s name).res = .ok (s2, x)) :
    edgeClosed s2 := by
  unfold get_node_for_account_name at hok
  cases hres : get_account_for_account_name (g.client.account_search name) name with
  | none =>
    simp only [hres] at hok
    simp at hok
    rw [← hok.1]
    exact h
  | some account =>
    simp only [hres] at hok
    cases hexp : (expand g (get_node_by_name s account.id (some account.acct)).1
        (get_node_by_name s account.id (some account.acct)).2).res with
    | error e =>
      cases e
      simp only [hexp] at hok
      simp at hok
    | ok s' =>
      simp only [hexp] at hok
      simp at hok
      rw [← hok.1]
      refine (expand_ok_mono hexp).2.2 ?_ ?_
      · unfold get_node_by_name
        exact edgeClosed_getOrCreate _ _ h
      · unfold hasNode
        rw [get_node_by_name_find]
        rfl

/-! ### Claim theorems -/

/-- C1: `get_account_for_account_name` implements exactly the three-tier
disambiguation policy of the spec (single raw result; unique case-sensitive
exact match; unique case-insensitive match over the original results;
otherwise `none`), including on the spec's four example searches. -/
theorem claim_c1_resolver_policy (accounts : List Account) (name : String) :
    get_account_for_account_name accounts name = resolvePolicySpec accounts name ∧
    get_account_for_account_name [⟨"1", "alice"⟩] "alice" = some ⟨"1", "alice"⟩ ∧
    get_account_for_account_name [⟨"1", "alice"⟩, ⟨"2", "alice2"⟩] "alice" =
      some ⟨"1", "alice"⟩ ∧
    get_account_for_account_name [⟨"1", "Alice"⟩, ⟨"2", "bob"⟩] "alice" =
      some ⟨"1", "Alice"⟩ ∧
    get_account_for_account_name [⟨"1", "alice"⟩, ⟨"2", "alice"⟩] "alice" = none := by
  refine ⟨?_, by decide, by decide, by decide, by decide⟩
  unfold get_account_for_account_name resolvePolicySpec
  rw [ifLenOneEq, ifLenOneEq, ifLenOneEq]

/-- C3: the key the expansion engine computes for a discovered neighbor is
the trimmed id when the handle has no `@`, and the trimmed id concatenated
with the handle's suffix from the first `@` (separator included) otherwise;
in particular `encode("42","alice") = "42"` and
`encode("42","alice@example.social") = "42@example.social"`. -/
theorem claim_c3_federated_key (mastodon_id handle : String) :
    (hasAt handle = false → neighborKey mastodon_id handle = pyStrip mastodon_id) ∧
    (∀ i, findAt handle.data = some i →
      neighborKey mastodon_id handle =
        pyStrip mastodon_id ++ String.mk (handle.data.drop i)) ∧
    neighborKey "42" "alice" = "42" ∧
    neighborKey "42" "alice@example.social" = "42@example.social" := by
  refine ⟨?_, ?_, by decide, by decide⟩
  · intro h
    unfold neighborKey instanceSuffix
    rw [findAt_eq_none handle.data h, string_append_mk_nil]
  · intro i hi
    unfold neighborKey instanceSuffix
    rw [hi]

/-- Witness for C3 at concrete inputs. -/
theorem claim_c3_federated_key_w :
    hasAt "alice" = false ∧ neighborKey "42" "alice" = pyStrip "42" :=
  ⟨by decide, (claim_c3_federated_key "42" "alice").1 (by decide)⟩

/-- C2 fails as stated: for the handle `alice` resolving (single raw result)
to the remote account `id "42"`, `acct "alice@example.social"`, the facade
creates the node under the bare key `"42"`, while the Federated Key Encoder
applied to that id and handle yields `"42@example.social"`. -/
theorem claim_c2_counterexample :
    (get_node_for_account_name (mkDefaultGraph cexClient) emptyStore "alice").res =
      .ok (⟨[⟨"42", some "alice@example.social", true⟩], []⟩,
        some ⟨"42", some "alice@example.social", true⟩) ∧
    get_account_for_account_name (cexClient.account_search "alice") "alice" =
      some ⟨"42", "alice@example.social"⟩ ∧
    neighborKey "42" "alice@example.social" = "42@example.social" ∧
    ("42" : String) ≠ "42@example.social" :=
  ⟨rfl, by decide, by decide, by decide⟩

/-- C2 (amended): for every handle the Identity Resolver resolves to an
account, the facade creates or retrieves the node under the bare trimmed
account id; the instance suffix is never appended by the facade, even when
the account's handle contains the separator. -/
theorem claim_c2_facade_key {client : DirectoryClient} {s : Store} {name : String}
    {account : Account}
    (hres : get_account_for_account_name (client.account_search name) name = some account) :
    ∃ s2 n, (get_node_for_account_name (mkDefaultGraph client) s name).res =
        .ok (s2, some n) ∧
      n.name = pyStrip account.id := by
  obtain ⟨s2, n, h1, h2, _⟩ := facade_swallow_node hres
  exact ⟨s2, n, h1, h2⟩

/-- Witness for the amended C2 at a concrete client and store. -/
theorem claim_c2_facade_key_w :
    ∃ s2 n, (get_node_for_account_name (mkDefaultGraph cexClient) emptyStore "alice").res =
        .ok (s2, some n) ∧
      n.name = pyStrip "42" :=
  @claim_c2_facade_key cexClient emptyStore "alice" ⟨"42", "alice@example.social"⟩ (by decide)

/-- C4: expanding a node whose key contains the instance suffix performs no
directory-client call, adds no edges, and the node ends up marked expanded. -/
theorem claim_c4_remote_leaf {g : MastodonSocialGraph} {s : Store} {node : NodeRec}
    (hat : hasAt node.name = true) (hfind : findNode s node.name = some node) :
    ∃ s', (expand g s node).res = .ok s' ∧ (expand g s node).calls = [] ∧
      s'.edges = s.edges ∧ nodeExpanded s' node.name = true := by
  have hhas : hasNode s node.name = true := by
    unfold hasNode
    rw [hfind]
    rfl
  cases hexp : node.expanded with
  | true =>
    refine ⟨s, ?_, ?_, rfl, ?_⟩
    · rw [expand_already g s hexp]
    · rw [expand_already g s hexp]
    · unfold nodeExpanded
      rw [hfind]
      exact hexp
  | false =>
    have heq := expand_fresh_ok (g := g) hexp (by rw [lnes_remote s hat])
    rw [lnes_remote s hat] at heq
    exact ⟨markExpanded s node.name, by rw [heq], by rw [heq],
      markExpanded_edges s node.name, nodeExpanded_markExpanded_self hhas⟩

/-- Witness for C4: a remote node `7@remote.social` in a one-node store. -/
theorem claim_c4_remote_leaf_w :
    ∃ s', (expand (mkDefaultGraph cexClient) ⟨[⟨"7@remote.social", none, false⟩], []⟩
        ⟨"7@remote.social", none, false⟩).res = .ok s' ∧
      (expand (mkDefaultGraph cexClient) ⟨[⟨"7@remote.social", none, false⟩], []⟩
        ⟨"7@remote.social", none, false⟩).calls = [] ∧
      s'.edges = (⟨[⟨"7@remote.social", none, false⟩], []⟩ : Store).edges ∧
      nodeExpanded s' "7@remote.social" = true :=
  claim_c4_remote_leaf (by decide) (by decide)

/-- C5: when the following fetch raises not-found, the default (swallowing)
configuration logs the account id, yields the empty list, and the node still
ends up expanded; the strict configuration propagates the error and the
stored flag stays false. -/
theorem claim_c5_notfound {client : DirectoryClient} {s : Store} {account_id : String}
    {ext : Option String}
    (hc : client.account_following account_id = .error ())
    (hat : hasAt account_id = false)
    (hfind : findNode s account_id = some ⟨account_id, ext, false⟩) :
    (load_following_accounts (mkDefaultGraph client) account_id).res = .ok [] ∧
    (load_following_accounts (mkDefaultGraph client) account_id).logs =
      ["Account was not found: " ++ account_id] ∧
    (∃ s', (expand (mkDefaultGraph client) s ⟨account_id, ext, false⟩).res = .ok s' ∧
      nodeExpanded s' account_id = true) ∧
    (expand ⟨client, false, true, false⟩ s ⟨account_id, ext, false⟩).res = .error () ∧
    nodeExpanded s account_id = false := by
  have hswallow := load_following_eq_swallow (g := mkDefaultGraph client) rfl hc
  refine ⟨by rw [hswallow], by rw [hswallow], ?_, ?_, ?_⟩
  · obtain ⟨s', hs'⟩ := expand_swallow_res (g := mkDefaultGraph client) s
      ⟨account_id, ext, false⟩ rfl
    exact ⟨s', hs', expand_ok_self hfind hs'⟩
  · have hln : (load_neighbor_accounts ⟨client, false, true, false⟩ account_id).res =
        .error () := by
      unfold load_neighbor_accounts
      simp [load_following_eq_strict (g := ⟨client, false, true, false⟩) rfl hc]
    rw [expand_fresh_err rfl (by rw [lnes_local_err s hat hln])]
  · unfold nodeExpanded
    rw [hfind]

/-- Witness for C5 at a concrete failing client and one-node store. -/
theorem claim_c5_notfound_w :
    (load_following_accounts (mkDefaultGraph errClient) "9").res = .ok [] ∧
    (load_following_accounts (mkDefaultGraph errClient) "9").logs =
      ["Account was not found: " ++ "9"] ∧
    (∃ s', (expand (mkDefaultGraph errClient) ⟨[⟨"9", none, false⟩], []⟩
        ⟨"9", none, false⟩).res = .ok s' ∧
      nodeExpanded s' "9" = true) ∧
    (expand ⟨errClient, false, true, false⟩ ⟨[⟨"9", none, false⟩], []⟩
      ⟨"9", none, false⟩).res = .error () ∧
    nodeExpanded ⟨[⟨"9", none, false⟩], []⟩ "9" = false :=
  claim_c5_notfound rfl (by decide) (by decide)

/-- C6: every node returned by the facade (default configuration) has been
expanded before being returned. -/
theorem claim_c6_expand_on_return {client : DirectoryClient} {s : Store} {name : String}
    {account : Account}
    (hres : get_account_for_account_name (client.account_search name) name = some account) :
    ∃ s2 n, (get_node_for_account_name (mkDefaultGraph client) s name).res =
        .ok (s2, some n) ∧
      n.expanded = true := by
  obtain ⟨s2, n, h1, _, h3⟩ := facade_swallow_node hres
  exact ⟨s2, n, h1, h3⟩

/-- Witness for C6 at a concrete client and the empty store. -/
theorem claim_c6_expand_on_return_w :
    ∃ s2 n, (get_node_for_account_name (mkDefaultGraph cexClient) emptyStore "alice").res =
        .ok (s2, some n) ∧
      n.expanded = true :=
  @claim_c6_expand_on_return cexClient emptyStore "alice" ⟨"42", "alice@example.social"⟩
    (by decide)

/-- C7: `load_neighbor_accounts` is the concatenation of the followers list
(empty when the flag is off) and the following list (empty when the flag is
off), with no deduplication; the default configuration disables followers
and enables following. -/
theorem claim_c7_neighbor_concat {client : DirectoryClient} {fo fg sw : Bool}
    {account_id : String} {l1 l2 : List Account}
    (h1 : client.account_followers account_id = .ok l1)
    (h2 : client.account_following account_id = .ok l2) :
    (load_neighbor_accounts ⟨client, fo, fg, sw⟩ account_id).res =
      .ok ((if fo then l1 else []) ++ (if fg then l2 else [])) ∧
    (mkDefaultGraph client).followers = false ∧
    (mkDefaultGraph client).following = true := by
  refine ⟨?_, rfl, rfl⟩
  unfold load_neighbor_accounts
  cases fo <;> cases fg <;>
    simp [load_follower_accounts, load_following_accounts, h1, h2]

/-- Witness for C7: both flags on, both fetches returning the same account,
showing the duplicated concatenation. -/
theorem claim_c7_neighbor_concat_w :
    (load_neighbor_accounts ⟨dupClient, true, true, true⟩ "1").res =
      .ok ((if true then [(⟨"1", "a"⟩ : Account)] else []) ++
        (if true then [(⟨"1", "a"⟩ : Account)] else [])) ∧
    (mkDefaultGraph dupClient).followers = false ∧
    (mkDefaultGraph dupClient).following = true :=
  claim_c7_neighbor_concat rfl rfl

/-- C8: expanding an already-expanded node performs zero client calls and
returns the store unchanged, and the expanded flag of any node, once true,
survives any successful expansion. -/
theorem claim_c8_idempotent {g : MastodonSocialGraph} {s s' : Store} {node : NodeRec} :
    (node.expanded = true → expand g s node = ⟨[], [], .ok s⟩) ∧
    ((expand g s node).res = .ok s' →
      ∀ k, nodeExpanded s k = true → nodeExpanded s' k = true) := by
  exact ⟨fun h => expand_already g s h, fun hok => (expand_ok_mono hok).2.1⟩

/-- Witness for C8: an already-expanded node in a one-node store. -/
theorem claim_c8_idempotent_w :
    expand (mkDefaultGraph cexClient) ⟨[⟨"5", none, true⟩], []⟩ ⟨"5", none, true⟩ =
      ⟨[], [], .ok ⟨[⟨"5", none, true⟩], []⟩⟩ :=
  (@claim_c8_idempotent (mkDefaultGraph cexClient) ⟨[⟨"5", none, true⟩], []⟩
    emptyStore ⟨"5", none, true⟩).1 (by decide)

/-- C9: after any sequence of public operations starting from the empty
store, every recorded edge connects two keys whose node records exist. -/
theorem claim_c9_edge_invariant (g : MastodonSocialGraph) (ops : List GraphOp) :
    edgeClosed (runOps g ops) := by
  have hstep : ∀ s op, edgeClosed s → edgeClosed (applyOp g s op) := by
    intro s op h
    cases op with
    | nodeFor handle =>
      simp only [applyOp]
      cases hr : (get_node_for_account_name g s handle).res with
      | error e => exact h
      | ok r => exact facade_ok_edgeClosed h (by rw [hr])
    | expandKey key =>
      simp only [applyOp]
      cases hf : findNode s key with
      | none => exact h
      | some n =>
        show edgeClosed (exceptStore s (expand g s n).res)
        cases he : (expand g s n).res with
        | error e => exact h
        | ok s1 =>
          refine (expand_ok_mono he).2.2 h ?_
          unfold hasNode
          rw [findNode_name hf, hf]
          rfl
  have hrun : ∀ (l : List GraphOp) (s : Store), edgeClosed s →
      edgeClosed (l.foldl (applyOp g) s) := by
    intro l
    induction l with
    | nil => exact fun s h => h
    | cons op t ih => exact fun s h => ih _ (hstep s op h)
  refine hrun ops emptyStore ?_
  intro a b hmem
  simp [emptyStore] at hmem

/-- C10: with both the followers flag and the following flag disabled, the
neighbor fetch returns the empty list with no client call, and expanding a
fresh local node performs no call and adds no edges (only the expanded flag
changes). -/
theorem claim_c10_both_disabled {client : DirectoryClient} {sw : Bool} {s : Store}
    {account_id : String} {ext : Option String}
    (hat : hasAt account_id = false) :
    load_neighbor_accounts ⟨client, false, false, sw⟩ account_id = ⟨[], [], .ok []⟩ ∧
    expand ⟨client, false, false, sw⟩ s ⟨account_id, ext, false⟩ =
      ⟨[], [], .ok (markExpanded s account_id)⟩ ∧
    (markExpanded s account_id).edges = s.edges := by
  have hln : load_neighbor_accounts ⟨client, false, false, sw⟩ account_id =
      ⟨[], [], .ok []⟩ := rfl
  have h2 : load_neighbors_from_external_source ⟨client, false, false, sw⟩ s
      ⟨account_id, ext, false⟩ = ⟨[], [], .ok s⟩ := by
    rw [lnes_local_ok s hat (by rw [hln]), hln]
    rfl
  refine ⟨hln, ?_, markExpanded_edges s account_id⟩
  rw [expand_fresh_ok rfl (by rw [h2]), h2]

/-- Witness for C10 at a concrete client and the empty store. -/
theorem claim_c10_both_disabled_w :
    load_neighbor_accounts ⟨cexClient, false, false, true⟩ "3" = ⟨[], [], .ok []⟩ ∧
    expand ⟨cexClient, false, false, true⟩ emptyStore ⟨"3", none, false⟩ =
      ⟨[], [], .ok (markExpanded emptyStore "3")⟩ ∧
    (markExpanded emptyStore "3").edges = emptyStore.edges :=
  claim_c10_both_disabled (by decide)

end Mastodon
